import Mathlib

/-!
Verification of the lecture-to-notebook converter (`convert_to_ipynb.py`)
and its reference record module (`reference.py`).

The Python AST fragment actually inspected by the converter is embedded
shallowly: `PyExpr` / `PyStmt` model exactly the node shapes the code
discriminates on, every other node shape is collapsed into a catch-all
constructor.  `ast.get_source_segment` is modelled by the `src` field
stored on each statement (an empty string models a `None` segment, since
the code only ever tests truthiness of the segment).  File contents read
from disk (local image embedding) are modelled by an explicit
`readImage : String → Option String` map from a local path to the data
URI the code would build (`none` models a missing or unreadable file).
-/

set_option autoImplicit false

namespace Ipynb

/-- Python expression nodes, restricted to the shapes `convert_to_ipynb.py`
discriminates on.  `constant` carries the `str()` rendering of the constant's
value, since the converter always applies `str` before using it. -/
inductive PyExpr where
  | constant (v : String)
  | name (id : String)
  | call (fn : PyExpr) (args : List PyExpr) (kwargs : List (Option String × PyExpr))
  | joinedStr (values : List PyExpr)
  | formattedValue (e : PyExpr)
  | tupleE (elts : List PyExpr)
  | compareE (left : PyExpr)
  | otherE

/-- Python statement nodes, restricted to the shapes the converter
discriminates on.  `src` models `ast.get_source_segment(source, stmt)`,
with `""` standing for a `None` (unavailable) segment.  `otherDef` stands
for `ast.AsyncFunctionDef` or `ast.ClassDef` (skipped by the top-level
capture, absent from the function table); `otherS` is any other statement. -/
inductive PyStmt where
  | assign (targets : List PyExpr) (value : PyExpr) (src : String)
  | exprStmt (value : PyExpr) (src : String)
  | functionDef (fname : String) (body : List PyStmt) (src : String)
  | otherDef (src : String)
  | ifStmt (test : PyExpr) (src : String)
  | otherS (src : String)

/-- The source segment stored on a statement. -/
def PyStmt.src : PyStmt → String
  | .assign _ _ s => s
  | .exprStmt _ s => s
  | .functionDef _ _ s => s
  | .otherDef s => s
  | .ifStmt _ s => s
  | .otherS s => s

/-! ### Association tables

Python `dict`s holding the reference table and the function table are
modelled as association lists with dict-like insertion: an existing key
is overwritten in place, a new key is appended (matching `dict` update
and iteration-order semantics). -/

/-- Insert with `dict` semantics: overwrite in place, else append. -/
def insertAssoc {α : Type} : List (String × α) → String → α → List (String × α)
  | [], n, v => [(n, v)]
  | (k, w) :: rest, n, v =>
    if k = n then (k, v) :: rest else (k, w) :: insertAssoc rest n v

/-- Lookup, first match wins (keys are unique in tables built by
`insertAssoc`). -/
def lookupAssoc {α : Type} : List (String × α) → String → Option α
  | [], _ => none
  | (k, w) :: rest, n => if k = n then some w else lookupAssoc rest n

/-- Reference table: name ↦ (title, url). -/
abbrev RefTable := List (String × (String × String))

/-! ### `reference.py` -/

/-- The `Reference` frozen dataclass from `reference.py`. -/
structure Reference where
  title : Option String := none
  authors : Option (List String) := none
  organization : Option String := none
  date : Option String := none
  url : Option String := none
  description : Option String := none
  notes : Option String := none
  deriving DecidableEq, Repr

/-- `join(*lines)` from `reference.py`: the semantics of
`"\n".join(lines)`. -/
def join : List String → String
  | [] => ""
  | [s] => s
  | s :: t :: rest => s ++ "\n" ++ join (t :: rest)

/-! ### Notebook cells and converter state -/

/-- A notebook cell as appended by `flush_markdown` / `flush_code`.  The
remaining dictionary fields of a cell (`metadata`, `execution_count`,
`outputs`) are constants in the code and are determined by the cell type,
so only the type and the source string are modelled. -/
inductive Cell where
  | markdown (source : String)
  | code (source : String)
  deriving DecidableEq, Repr

/-- The mutable buffers of a `LectureConverter`: `self.cells`,
`self.current_markdown`, `self.current_code`. -/
structure St where
  cells : List Cell
  cm : List String
  cc : List String
  deriving DecidableEq, Repr

/-- `s.startswith(pre)`: prefix test on the character sequence. -/
def pyStartswith (s pre : String) : Bool :=
  pre.data.isPrefixOf s.data

/-- Python whitespace characters stripped by `str.rstrip()` /
`str.strip()` (the ASCII ones; the inputs at hand are ASCII). -/
def pyIsSpace (c : Char) : Bool :=
  c = ' ' || c = '\t' || c = '\n' || c = '\r' || c = '\x0b' || c = '\x0c'

/-- `s.rstrip()`. -/
def pyRstrip (s : String) : String :=
  String.mk ((s.data.reverse.dropWhile pyIsSpace).reverse)

/-- `s.strip()`. -/
def pyStrip (s : String) : String :=
  String.mk (((s.data.dropWhile pyIsSpace).reverse.dropWhile pyIsSpace).reverse)

/-- `LectureConverter.flush_markdown`. -/
def flush_markdown (st : St) : St :=
  if st.cm.isEmpty then st
  else
    { cells := st.cells ++ [Cell.markdown (String.intercalate "\n\n" st.cm ++ "\n")],
      cm := [],
      cc := st.cc }

/-- `LectureConverter.flush_code`. -/
def flush_code (st : St) : St :=
  if st.cc.isEmpty then st
  else
    { cells := st.cells ++ [Cell.code (pyRstrip (String.join st.cc) ++ "\n")],
      cm := st.cm,
      cc := [] }

/-! ### Argument resolution (`get_arg_value` and friends) -/

/-- `CONTENT_FUNCTIONS` from the module header. -/
def CONTENT_FUNCTIONS : List String :=
  ["text", "link", "image", "system_text",
   "named_link", "article_link", "blog_link", "x_link", "youtube_link"]

/-- The value `get_arg_value` produces: a plain string, or the
`(title, url)` tuple stored in the reference table. -/
inductive ArgVal where
  | str (s : String)
  | pair (t u : String)
  deriving DecidableEq, Repr

/-- Argument selection shared by `get_arg_value`: positional argument
`arg_index` when present, else the first keyword argument named
`kwarg_name` (the `if kwarg_name:` truthiness test also rejects an empty
name). -/
def findArg (args : List PyExpr) (kwargs : List (Option String × PyExpr))
    (i : Nat) (kwname : Option String) : Option PyExpr :=
  match args.get? i with
  | some a => some a
  | none =>
    match kwname with
    | some k =>
      if k = "" then none
      else (kwargs.find? (fun kw => kw.1 = some k)).map (fun kw => kw.2)
    | none => none

/-- The scan of `context_body` in `get_arg_value`'s `ast.Name` branch,
applied to the reversed body.  A matching single-target assignment of a
constant returns the constant; an assignment of a `run_policy_gradient()`
call returns the bare name; any other assignment to the name is skipped
and the scan continues.  (The source's `if stmt == node: continue` guard
compares a statement with the call expression node; in Python these are
never the same object, so the guard has no effect and is not modelled.) -/
def lookupLocal (id : String) : List PyStmt → String
  | [] => id
  | stmt :: rest =>
    match stmt with
    | .assign [.name t] v _ =>
      if t = id then
        match v with
        | .constant c => c
        | .call (.name g) _ _ =>
          if g = "run_policy_gradient" then id else lookupLocal id rest
        | _ => lookupLocal id rest
      else lookupLocal id rest
    | _ => lookupLocal id rest

/-- The `ast.JoinedStr` branch of `get_arg_value`: constant parts pass
through, a formatted bare name `x` becomes `{x}`, any other formatted
expression becomes `{...}`. -/
def resolveFString : List PyExpr → String
  | [] => ""
  | p :: rest =>
    (match p with
     | .constant v => v
     | .formattedValue (.name x) => "\x7b" ++ x ++ "\x7d"
     | .formattedValue _ => "\x7b...\x7d"
     | _ => "") ++ resolveFString rest

/-- `LectureConverter.get_arg_value`.  A `None` / empty `context_body`
and a missing argument both yield `""` exactly as in the source. -/
def get_arg_value (refs : RefTable) (args : List PyExpr)
    (kwargs : List (Option String × PyExpr)) (i : Nat) (kwname : Option String)
    (ctx : List PyStmt) : ArgVal :=
  match findArg args kwargs i kwname with
  | none => .str ""
  | some arg =>
    match arg with
    | .constant v => .str v
    | .name id =>
      match lookupAssoc refs id with
      | some tu => .pair tu.1 tu.2
      | none => .str (lookupLocal id ctx.reverse)
    | .joinedStr parts => .str (resolveFString parts)
    | _ => .str ""

/-- `LectureConverter.get_arg_value_simple`: only constants resolve; a
non-constant positional argument falls through to the keyword search. -/
def get_arg_value_simple (args : List PyExpr)
    (kwargs : List (Option String × PyExpr)) (i : Nat) (kwname : Option String) : String :=
  match args.get? i with
  | some (.constant v) => v
  | _ =>
    match kwname with
    | some k =>
      if k = "" then ""
      else
        (kwargs.findSome? fun kw =>
          match kw with
          | (some k', PyExpr.constant v) => if k' = k then some v else none
          | _ => none).getD ""
    | none => ""

/-! ### `format_content_call` -/

/-- Python's `str()` of a pair of strings, as produced when a reference
tuple leaks into an f-string interpolation. -/
def pyTupleStr (a b : String) : String :=
  "(\x27" ++ a ++ "\x27, \x27" ++ b ++ "\x27)"

/-- `str()` of an `ArgVal` (used by the f-string interpolations in
`format_content_call`). -/
def pyArgStr : ArgVal → String
  | .str s => s
  | .pair a b => pyTupleStr a b

/-- Python truthiness of an `ArgVal`: an empty string is falsy, a
two-element tuple is truthy. -/
def argTruthy : ArgVal → Bool
  | .str s => !s.isEmpty
  | .pair _ _ => true

/-- The `<img src=... width=... />` rendering used by the `image` branch. -/
def imgTag (srcAttr w : String) : String :=
  "<img src=\"" ++ srcAttr ++ "\" width=\"" ++ w ++ "\" />"

/-- The common tail of the `link` branch, after `title` and `url` have
been extracted: when `url` is not a string instance or is empty, an entry
of the reference table under the title replaces both; then an empty url
yields the bare title and anything else the `[title](url)` rendering
(a tuple url passing through Python's `str`). -/
def linkRender (refs : RefTable) (title0 : String) (url0 : ArgVal) : String :=
  let needsSub : Bool :=
    match url0 with
    | .str s => s.isEmpty
    | .pair _ _ => true
  let tu2 : String × ArgVal :=
    if needsSub then
      match lookupAssoc refs title0 with
      | some r => (r.1, .str r.2)
      | none => (title0, url0)
    else (title0, url0)
  match tu2.2 with
  | .str s => if s.isEmpty then tu2.1 else "[" ++ tu2.1 ++ "](" ++ s ++ ")"
  | .pair a b => "[" ++ tu2.1 ++ "](" ++ pyTupleStr a b ++ ")"

/-- `LectureConverter.format_content_call`, split by the function name of
the call (the caller guarantees the callee is `node.func.id`).
`readImage` abstracts the local-image embedding: it maps a local path to
the `data:` URI the code would build, `none` standing for a missing file
or a raised exception (both fall back to the plain rendering). -/
def format_content_call (refs : RefTable) (readImage : String → Option String)
    (f : String) (args : List PyExpr) (kwargs : List (Option String × PyExpr))
    (ctx : List PyStmt) : String :=
  if f = "text" then
    match get_arg_value refs args kwargs 0 none ctx with
    | .pair t _ => t
    | .str s => s
  else if f = "link" then
    match get_arg_value refs args kwargs 0 (some "title") ctx with
    | .pair t u => linkRender refs t (.str u)
    | .str t0 => linkRender refs t0 (get_arg_value refs args kwargs 1 (some "url") ctx)
  else if f = "image" then
    let pv := get_arg_value refs args kwargs 0 none ctx
    let path := match pv with | .pair _ u => u | .str s => s
    let wv := get_arg_value refs args kwargs 1 (some "width") ctx
    let hasW := argTruthy wv
    let w := pyArgStr wv
    if path.startsWith "http://" || path.startsWith "https://" then
      if hasW then imgTag path w else "![image](" ++ path ++ ")"
    else
      match readImage path with
      | some dataUri =>
        if hasW then imgTag dataUri w else "![image](" ++ dataUri ++ ")"
      | none =>
        if hasW then imgTag path w else "![image](" ++ path ++ ")"
  else if f = "article_link" || f = "blog_link" || f = "x_link" || f = "youtube_link" then
    let u := match get_arg_value refs args kwargs 0 none ctx with
      | .pair _ b => b
      | .str s => s
    "[link](" ++ u ++ ")"
  else if f = "named_link" then
    let nm := match get_arg_value refs args kwargs 0 none ctx with
      | .pair a _ => a
      | .str s => s
    let u := match get_arg_value refs args kwargs 1 none ctx with
      | .pair _ b => b
      | .str s => s
    "[" ++ nm ++ "](" ++ u ++ ")"
  else ""

/-! ### `process_body` -/

/-- The `if not handled:` tail of the statement loop: flush the markdown
buffer, then append the statement's source (when the segment is
available) to the code buffer. -/
def appendCode (st : St) (src : String) : St :=
  let st1 := flush_markdown st
  if src = "" then st1 else { st1 with cc := st1.cc ++ [src ++ "\n"] }

/-- The tuple-statement scan in `process_body`: `some line` when every
element is a call to a content function (`line` collecting the stripped
non-empty formatted results, in order), `none` as soon as an element is
not such a call (the Python loop breaks and `all_content` is false). -/
def tupleLine (refs : RefTable) (readImage : String → Option String)
    (ctx : List PyStmt) : List PyExpr → Option (List String)
  | [] => some []
  | el :: rest =>
    match el with
    | .call (.name f) args kwargs =>
      if f ∈ CONTENT_FUNCTIONS then
        let c := format_content_call refs readImage f args kwargs ctx
        match tupleLine refs readImage ctx rest with
        | some acc => some ((if c = "" then [] else [pyStrip c]) ++ acc)
        | none => none
      else none
    | _ => none

/-- `LectureConverter.process_body`.  `ctx` is the body passed as
`context_body` to the formatting calls (the full body, not the remaining
suffix).  `fns` is `self.functions`.  Recursion into a called lecture
function re-enters with that function's body as both the processed list
and the context.  Python bounds the nested recursion only by its
recursion limit; here a `fuel` counter decreasing at every statement
makes the recursion structural, and every theorem below supplies enough
fuel for the statements it processes, where the two agree. -/
def process_body (fns : List (String × List PyStmt)) (refs : RefTable)
    (readImage : String → Option String) :
    Nat → List PyStmt → St → List PyStmt → St
  | 0, _, st, _ => st
  | _ + 1, _, st, [] => st
  | fuel + 1, ctx, st, stmt :: rest =>
    let st' : St :=
      match stmt with
      | .exprStmt (.call (.name f) args kwargs) src =>
        if f ∈ CONTENT_FUNCTIONS then
          let st1 := flush_code st
          let c := format_content_call refs readImage f args kwargs ctx
          if c = "" then st1 else { st1 with cm := st1.cm ++ [c] }
        else
          match lookupAssoc fns f with
          | some fbody =>
            process_body fns refs readImage fuel fbody (flush_markdown (flush_code st)) fbody
          | none => appendCode st src
      | .exprStmt (.tupleE elts) src =>
        match tupleLine refs readImage ctx elts with
        | some line =>
          let st1 := flush_code st
          { st1 with cm := st1.cm ++ [String.intercalate " " (line.filter (fun s => !s.isEmpty))] }
        | none => appendCode st src
      | s => appendCode st s.src
    process_body fns refs readImage fuel ctx st' rest

/-! ### Reference scanning (`_scan_for_refs`, `load_references`) -/

/-- One step of `_scan_for_refs`: handle a top-level
`x = Reference(...)` / `x = arxiv_reference(...)` assignment, inserting
an entry for every `ast.Name` target when the resolved url is non-empty
(with `ref_title or name` as the stored title). -/
def scanStep (refs : RefTable) (stmt : PyStmt) : RefTable :=
  match stmt with
  | .assign targets (.call (.name fid) args kwargs) _ =>
    let tu : String × String :=
      if fid = "Reference" then
        (get_arg_value_simple args kwargs 0 (some "title"),
         get_arg_value_simple args kwargs 1 (some "url"))
      else if fid = "arxiv_reference" then
        ("", get_arg_value_simple args kwargs 0 none)
      else ("", "")
    if tu.2 = "" then refs
    else
      targets.foldl
        (fun r t =>
          match t with
          | .name n => insertAssoc r n ((if tu.1 = "" then n else tu.1), tu.2)
          | _ => r)
        refs
  | _ => refs

/-- `LectureConverter._scan_for_refs` over a tree's top-level body. -/
def _scan_for_refs (body : List PyStmt) : RefTable :=
  body.foldl scanStep []

/-- `refs.update(d)`: insert `d`'s entries into `refs` in order. -/
def updateTable (base add : RefTable) : RefTable :=
  add.foldl (fun b e => insertAssoc b e.1 e.2) base

/-- `LectureConverter.load_references`: scan `references.py` when it
exists and parses (`ext = some tree`; `none` models a missing file or a
parse error swallowed by the `except` clause), then scan the input
file's own tree on top. -/
def load_references (ext : Option (List PyStmt)) (cur : List PyStmt) : RefTable :=
  let refs : RefTable := []
  let refs := match ext with
    | some t => updateTable refs (_scan_for_refs t)
    | none => refs
  updateTable refs (_scan_for_refs cur)

/-! ### `convert` -/

/-- The top-level capture in `convert`: source segments of every
top-level statement except function/class definitions, reference
assignments, and the `if __name__ == ...` guard. -/
def top_level_code (tree : List PyStmt) : List String :=
  tree.filterMap fun stmt =>
    match stmt with
    | .functionDef _ _ _ => none
    | .otherDef _ => none
    | .assign _ (.call (.name fid) _ _) src =>
      if fid = "Reference" || fid = "arxiv_reference" then none
      else if src = "" then none else some (src ++ "\n")
    | .ifStmt (.compareE (.name nm)) src =>
      if nm = "__name__" then none
      else if src = "" then none else some (src ++ "\n")
    | s => if s.src = "" then none else some (s.src ++ "\n")

/-- `self.functions`: the dict comprehension over top-level
`ast.FunctionDef` nodes. -/
def functionsOf (tree : List PyStmt) : List (String × List PyStmt) :=
  tree.foldl
    (fun m s =>
      match s with
      | .functionDef n b _ => insertAssoc m n b
      | _ => m)
    []

/-- The entry-point selection in `convert`: `main` when defined, else the
first function whose name starts with `lecture_`, else the (absent) name
`main`. -/
def entry_point (fns : List (String × List PyStmt)) : String :=
  if (lookupAssoc fns "main").isSome then "main"
  else
    match fns.find? (fun p => pyStartswith p.1 "lecture_") with
    | some p => p.1
    | none => "main"

/-- `LectureConverter.convert`, up to the cell list of the emitted
notebook (the JSON envelope around `cells` is constant). -/
def convert (refs : RefTable) (readImage : String → Option String)
    (fuel : Nat) (tree : List PyStmt) : List Cell :=
  let fns := functionsOf tree
  let st0 : St := { cells := [], cm := [], cc := top_level_code tree }
  let st1 :=
    match lookupAssoc fns (entry_point fns) with
    | some b => process_body fns refs readImage fuel b st0 b
    | none => st0
  (flush_markdown (flush_code st1)).cells

/-! ### Statement classification (derived from the `process_body`
branches, used to phrase the cell-grouping results) -/

/-- The statement is a bare expression statement calling a content
function by name. -/
def isContentStmt : PyStmt → Bool
  | .exprStmt (.call (.name f) _ _) _ => decide (f ∈ CONTENT_FUNCTIONS)
  | _ => false

/-- The statement is an expression statement calling a locally defined
(non-content) function: `process_body` recurses into its body. -/
def isRecurStmt (fns : List (String × List PyStmt)) : PyStmt → Bool
  | .exprStmt (.call (.name f) _ _) _ =>
    decide (f ∉ CONTENT_FUNCTIONS) && (lookupAssoc fns f).isSome
  | _ => false

/-- The expression is a call, by name, to a content function. -/
def isContentCall : PyExpr → Bool
  | .call (.name f) _ _ => decide (f ∈ CONTENT_FUNCTIONS)
  | _ => false

/-- The statement is a tuple expression statement all of whose elements
are content calls: `process_body` turns it into one markdown line. -/
def isAllContentTuple : PyStmt → Bool
  | .exprStmt (.tupleE elts) _ => elts.all isContentCall
  | _ => false

/-- A body is plain when it contains neither calls to locally defined
functions nor all-content tuple statements: every statement is then
either a content call (markdown) or appended source (code). -/
def PlainBody (fns : List (String × List PyStmt)) (body : List PyStmt) : Prop :=
  ∀ s ∈ body, isRecurStmt fns s = false ∧ isAllContentTuple s = false

/-- The markdown string a content statement formats to (`""` on any
other statement; only used beneath `isContentStmt`). -/
def stmtContent (refs : RefTable) (readImage : String → Option String)
    (ctx : List PyStmt) : PyStmt → String
  | .exprStmt (.call (.name f) args kwargs) _ =>
    format_content_call refs readImage f args kwargs ctx
  | _ => ""

/-- What a content statement adds to the markdown buffer: its formatted
result when non-empty, nothing otherwise. -/
def mdApp (refs : RefTable) (readImage : String → Option String)
    (ctx : List PyStmt) (s : PyStmt) : List String :=
  let c := stmtContent refs readImage ctx s
  if c = "" then [] else [c]

/-- What a plain statement adds to the code buffer: its source segment
plus a newline when the segment is available, nothing otherwise. -/
def ccApp (s : PyStmt) : List String :=
  if s.src = "" then [] else [s.src ++ "\n"]

/-- The markdown cell a buffer flushes to (none when empty), as in
`flush_markdown`. -/
def mdCellList (cm : List String) : List Cell :=
  if cm.isEmpty then [] else [Cell.markdown (String.intercalate "\n\n" cm ++ "\n")]

/-- The code cell a buffer flushes to (none when empty), as in
`flush_code`. -/
def cdCellList (cc : List String) : List Cell :=
  if cc.isEmpty then [] else [Cell.code (pyRstrip (String.join cc) ++ "\n")]

/-- Emitted-cell semantics of processing a plain body from given pending
buffers, with final `flush_code(); flush_markdown()`: the functional
reformulation of `process_body` that lists the cells it appends instead
of threading them through the state. -/
def specCells (refs : RefTable) (readImage : String → Option String)
    (ctx : List PyStmt) : List String → List String → List PyStmt → List Cell
  | cm, cc, [] => cdCellList cc ++ mdCellList cm
  | cm, cc, s :: rest =>
    if isContentStmt s then
      cdCellList cc ++ specCells refs readImage ctx (cm ++ mdApp refs readImage ctx s) [] rest
    else
      mdCellList cm ++ specCells refs readImage ctx [] (cc ++ ccApp s) rest

/-- Maximal runs of adjacent elements sharing a classification, tagged
with the class. -/
def runsAux {α : Type} (cls : α → Bool) : List α → List (Bool × List α)
  | [] => []
  | s :: rest =>
    match runsAux cls rest with
    | [] => [(cls s, [s])]
    | (b, run) :: more =>
      if cls s = b then (b, s :: run) :: more else (cls s, [s]) :: (b, run) :: more

/-- The cells one maximal run contributes, following the claim: a content
run yields one markdown cell built from its non-empty formatted results
(no cell when all are empty); a plain run yields one code cell built
from its available source segments, each newline-terminated (no cell
when none is available). -/
def runCell (refs : RefTable) (readImage : String → Option String)
    (ctx : List PyStmt) : Bool × List PyStmt → List Cell
  | (true, run) => mdCellList (List.flatten (run.map (mdApp refs readImage ctx)))
  | (false, run) => cdCellList (List.flatten (run.map ccApp))

/-- The cell list predicted by the run decomposition of a body. -/
def specCellsOfRuns (refs : RefTable) (readImage : String → Option String)
    (ctx : List PyStmt) (rs : List (Bool × List PyStmt)) : List Cell :=
  List.flatten (rs.map (runCell refs readImage ctx))

/-! ### Claim-side reference-table description (claim C3) -/

/-- The entry an individual top-level assignment contributes for the
name `x`, written from the claim's wording: `x = Reference(...)` with a
constant non-empty url maps to `(title or x, url)`; `x =
arxiv_reference(url)` with a constant non-empty url maps to `(x, url)`;
anything else contributes nothing. -/
def refEntrySpec (x : String) (stmt : PyStmt) : Option (String × String) :=
  match stmt with
  | .assign targets (.call (.name fid) args kwargs) _ =>
    if targets.any (fun t => match t with | .name n => n = x | _ => false) then
      if fid = "Reference" then
        let u := get_arg_value_simple args kwargs 1 (some "url")
        if u = "" then none
        else
          let t := get_arg_value_simple args kwargs 0 (some "title")
          some ((if t = "" then x else t), u)
      else if fid = "arxiv_reference" then
        let u := get_arg_value_simple args kwargs 0 none
        if u = "" then none else some (x, u)
      else none
    else none
  | _ => none

/-! ### Claim-side f-string description (claim C6) -/

/-- The claim's reading of f-string resolution: the in-order
concatenation of the parts' renderings, a constant part passing through
verbatim, an interpolated bare name `x` rendering as `{x}`, and any
other interpolated expression as `{...}`. -/
def fStringSpec (parts : List PyExpr) : String :=
  (parts.map fun p =>
    match p with
    | .constant s => s
    | .formattedValue (.name x) => "\x7b" ++ x ++ "\x7d"
    | .formattedValue _ => "\x7b...\x7d"
    | _ => "").foldr (fun a b => a ++ b) ""

/-! ### Claim-side local-name resolution (claim C7, amended) -/

/-- The amended claim's description of resolving a bare name against the
enclosing body: scan most-recent-first over single-target assignments to
the name; the first one assigning a constant yields that constant, but a
`run_policy_gradient(...)` call met first stops the scan and yields the
bare name; with no such assignment the name itself is returned.
`localHit` gives one statement's verdict: `some (some c)` for a constant
assignment to the name, `some none` for a `run_policy_gradient` one,
`none` when the scan passes over the statement. -/
def localHit (x : String) (s : PyStmt) : Option (Option String) :=
  match s with
  | .assign [.name t] v _ =>
    if t = x then
      match v with
      | .constant c => some (some c)
      | .call (.name g) _ _ =>
        if g = "run_policy_gradient" then some none else none
      | _ => none
    else none
  | _ => none

def localNameSpec (body : List PyStmt) (x : String) : String :=
  match body.reverse.findSome? (localHit x) with
  | some (some c) => c
  | some none => x
  | none => x

/-! ### Concrete inputs for evaluation

Small lecture bodies used to evaluate the embedded converter at specific
inputs.  `noImage` is the filesystem with no readable images. -/

def noImage : String → Option String := fun _ => none

/-- A body whose most recent assignment to `x` is a
`run_policy_gradient()` call shadowing an earlier constant binding. -/
def ctxC7 : List PyStmt :=
  [.assign [.name "x"] (.constant "hello") "x = \"hello\"",
   .assign [.name "x"] (.call (.name "run_policy_gradient") [] []) "x = run_policy_gradient()",
   .exprStmt (.call (.name "text") [.name "x"] []) "text(x)"]

/-- A body with a `system_text` call (which formats to the empty string)
followed by a tuple statement whose sole element is a content call. -/
def bodyC1 : List PyStmt :=
  [.exprStmt (.call (.name "system_text") [.constant "hi"] []) "system_text(\"hi\")",
   .exprStmt (.tupleE [.call (.name "text") [.constant "a"] []]) "text(\"a\"),"]

/-- A body with two plain assignments followed by a `system_text` call. -/
def bodyC2 : List PyStmt :=
  [.assign [.name "x"] (.constant "1") "x = 1",
   .assign [.name "y"] (.constant "2") "y = 2",
   .exprStmt (.call (.name "system_text") [.constant "hello"] []) "system_text(\"hello\")"]

/-- A plain body mixing a code run, a content run, and a code run. -/
def bodyW2 : List PyStmt :=
  [.assign [.name "x"] (.constant "1") "x = 1",
   .exprStmt (.call (.name "text") [.constant "a"] []) "text(\"a\")",
   .exprStmt (.call (.name "text") [.constant "b"] []) "text(\"b\")",
   .otherS "y = 2"]

/-- A tree defining `main`. -/
def treeMain : List PyStmt :=
  [.functionDef "main" [] "def main():\n    pass"]

/-- A tree defining only a `lecture_`-prefixed function. -/
def treeLecture : List PyStmt :=
  [.functionDef "lecture_intro" [] "def lecture_intro():\n    pass"]

/-- A tree with neither `main` nor a `lecture_` function. -/
def treeTopOnly : List PyStmt :=
  [.otherS "x = 1"]

/-- A `references.py` tree binding `r`. -/
def extTreeC10 : List PyStmt :=
  [.assign [.name "r"] (.call (.name "Reference") [] [(some "url", .constant "http://ext")])
    "r = Reference(url=\"http://ext\")"]

/-- An input tree rebinding the same name `r`. -/
def curTreeC10 : List PyStmt :=
  [.assign [.name "r"] (.call (.name "Reference") [] [(some "url", .constant "http://cur")])
    "r = Reference(url=\"http://cur\")"]

/-! ## Helper lemmas -/

theorem lookupAssoc_insertAssoc {α : Type} (r : List (String × α)) (n x : String) (v : α) :
    lookupAssoc (insertAssoc r n v) x = if n = x then some v else lookupAssoc r x := by
  induction r with
  | nil => simp only [insertAssoc, lookupAssoc]
  | cons p rest ih =>
    obtain ⟨k, w⟩ := p
    by_cases hk : k = n
    · subst hk
      simp only [insertAssoc, if_pos rfl, lookupAssoc]
      by_cases h : k = x <;> simp [h]
    · simp only [insertAssoc, if_neg hk, lookupAssoc]
      by_cases h : k = x
      · subst h
        have hnx : ¬ n = k := fun hc => hk hc.symm
        simp [if_neg hnx]
      · simp [h, ih]

theorem flush_markdown_eq (st : St) :
    flush_markdown st = { cells := st.cells ++ mdCellList st.cm, cm := [], cc := st.cc } := by
  obtain ⟨cs, cm, cc⟩ := st
  cases cm with
  | nil => simp [flush_markdown, mdCellList]
  | cons a l => simp [flush_markdown, mdCellList]

theorem flush_code_eq (st : St) :
    flush_code st = { cells := st.cells ++ cdCellList st.cc, cm := st.cm, cc := [] } := by
  obtain ⟨cs, cm, cc⟩ := st
  cases cc with
  | nil => simp [flush_code, cdCellList]
  | cons a l => simp [flush_code, cdCellList]

/-! ## Claim C8 -/

/-- Claim C8: `Reference` values are equal exactly when all seven fields
are equal (the `@dataclass` structural equality), and `join` concatenates
its arguments with single newlines between consecutive ones, so on a
single string it is the identity. -/
theorem claim_C8 :
    (∀ r₁ r₂ : Reference, r₁ = r₂ ↔
      (r₁.title = r₂.title ∧ r₁.authors = r₂.authors ∧
       r₁.organization = r₂.organization ∧ r₁.date = r₂.date ∧
       r₁.url = r₂.url ∧ r₁.description = r₂.description ∧
       r₁.notes = r₂.notes)) ∧
    (∀ s, join [s] = s) ∧
    (∀ x y rest, join (x :: y :: rest) = x ++ "\n" ++ join (y :: rest)) := by
  refine ⟨?_, fun s => rfl, fun x y rest => rfl⟩
  intro r₁ r₂
  constructor
  · rintro rfl
    exact ⟨rfl, rfl, rfl, rfl, rfl, rfl, rfl⟩
  · rintro ⟨h1, h2, h3, h4, h5, h6, h7⟩
    cases r₁; cases r₂
    simp_all

/-- Claim C8, applied: two concretely distinct-by-field references are
distinguished, `join` on one string is that string, `join` inserts one
newline between two strings. -/
theorem claim_C8_witness :
    ({ title := some "T" } : Reference) = { title := some "T" } ∧
    join ["a"] = "a" ∧
    join ["a", "b"] = "a" ++ "\n" ++ join ["b"] :=
  ⟨(claim_C8.1 { title := some "T" } { title := some "T" }).mpr
      ⟨rfl, rfl, rfl, rfl, rfl, rfl, rfl⟩,
   claim_C8.2.1 "a",
   claim_C8.2.2 "a" "b" []⟩

/-! ## Claim C9 -/

/-- Claim C9: each flush is a no-op on an empty buffer; on a non-empty
buffer it appends exactly one cell of its own type at the end of the cell
list, empties its own buffer, and leaves the other buffer and the
previously emitted cells unchanged. -/
theorem claim_C9 (st : St) :
    (st.cm = [] → flush_markdown st = st) ∧
    (st.cm ≠ [] → ∃ s, flush_markdown st =
      { cells := st.cells ++ [Cell.markdown s], cm := [], cc := st.cc }) ∧
    (st.cc = [] → flush_code st = st) ∧
    (st.cc ≠ [] → ∃ s, flush_code st =
      { cells := st.cells ++ [Cell.code s], cm := st.cm, cc := [] }) := by
  refine ⟨?_, ?_, ?_, ?_⟩
  · intro h; simp [flush_markdown, h]
  · intro h
    refine ⟨String.intercalate "\n\n" st.cm ++ "\n", ?_⟩
    rw [flush_markdown_eq]
    have hne : st.cm.isEmpty = false := by
      cases hcm : st.cm with
      | nil => exact absurd hcm h
      | cons a l => rfl
    simp [mdCellList, hne]
  · intro h; simp [flush_code, h]
  · intro h
    refine ⟨pyRstrip (String.join st.cc) ++ "\n", ?_⟩
    rw [flush_code_eq]
    have hne : st.cc.isEmpty = false := by
      cases hcc : st.cc with
      | nil => exact absurd hcc h
      | cons a l => rfl
    simp [cdCellList, hne]

/-- Claim C9, applied at concrete states on both sides of each
emptiness test. -/
theorem claim_C9_witness :
    flush_markdown { cells := [], cm := [], cc := ["c"] } =
      { cells := [], cm := [], cc := ["c"] } ∧
    (∃ s, flush_markdown { cells := [], cm := ["m"], cc := ["c"] } =
      { cells := [Cell.markdown s], cm := [], cc := ["c"] }) ∧
    flush_code { cells := [], cm := ["m"], cc := [] } =
      { cells := [], cm := ["m"], cc := [] } ∧
    (∃ s, flush_code { cells := [], cm := ["m"], cc := ["c"] } =
      { cells := [Cell.code s], cm := ["m"], cc := [] }) :=
  ⟨(claim_C9 { cells := [], cm := [], cc := ["c"] }).1 rfl,
   (claim_C9 { cells := [], cm := ["m"], cc := ["c"] }).2.1 (by simp),
   (claim_C9 { cells := [], cm := ["m"], cc := [] }).2.2.1 rfl,
   (claim_C9 { cells := [], cm := ["m"], cc := ["c"] }).2.2.2 (by simp)⟩

/-! ## Claim C6 -/

theorem resolveFString_eq_spec (parts : List PyExpr) :
    resolveFString parts = fStringSpec parts := by
  induction parts with
  | nil => rfl
  | cons p rest ih =>
    simp only [resolveFString, fStringSpec, List.map_cons, List.foldr_cons] at *
    rw [ih]

theorem get_arg_value_joined (refs : RefTable) (args : List PyExpr)
    (kwargs : List (Option String × PyExpr)) (i : Nat) (kw : Option String)
    (ctx : List PyStmt) (parts : List PyExpr)
    (h : findArg args kwargs i kw = some (.joinedStr parts)) :
    get_arg_value refs args kwargs i kw ctx = .str (resolveFString parts) := by
  unfold get_arg_value
  rw [h]

theorem get_arg_value_name (refs : RefTable) (args : List PyExpr)
    (kwargs : List (Option String × PyExpr)) (i : Nat) (kw : Option String)
    (ctx : List PyStmt) (x : String)
    (h : findArg args kwargs i kw = some (.name x)) :
    get_arg_value refs args kwargs i kw ctx =
      (match lookupAssoc refs x with
       | some tu => .pair tu.1 tu.2
       | none => .str (lookupLocal x ctx.reverse)) := by
  unfold get_arg_value
  rw [h]

/-- Claim C6: resolving an f-string argument yields the in-order
concatenation of its constant parts verbatim, with an interpolated bare
name `x` rendered as `{x}` and any other interpolated expression as
`{...}`. -/
theorem claim_C6 (refs : RefTable) (args : List PyExpr)
    (kwargs : List (Option String × PyExpr)) (i : Nat) (kw : Option String)
    (ctx : List PyStmt) (parts : List PyExpr)
    (h : findArg args kwargs i kw = some (.joinedStr parts)) :
    get_arg_value refs args kwargs i kw ctx = .str (fStringSpec parts) := by
  rw [get_arg_value_joined refs args kwargs i kw ctx parts h, resolveFString_eq_spec]

/-- Claim C6, applied to `f"a{x}{y+1}"`. -/
theorem claim_C6_witness :
    get_arg_value []
      [PyExpr.joinedStr
        [.constant "a", .formattedValue (.name "x"), .formattedValue .otherE]]
      [] 0 none [] =
    .str (fStringSpec
      [.constant "a", .formattedValue (.name "x"), .formattedValue .otherE]) :=
  claim_C6 [] _ [] 0 none []
    [.constant "a", .formattedValue (.name "x"), .formattedValue .otherE] rfl

/-! ## Claim C7 -/

theorem lookupLocal_eq_findSome (x : String) (l : List PyStmt) :
    lookupLocal x l =
      (match l.findSome? (localHit x) with
       | some (some c) => c
       | some none => x
       | none => x) := by
  induction l with
  | nil => rfl
  | cons s rest ih =>
    rw [List.findSome?_cons]
    cases s with
    | assign targets v src =>
      match targets with
      | [] => simpa [lookupLocal, localHit] using ih
      | [PyExpr.name t] =>
        by_cases ht : t = x
        · subst ht
          cases v with
          | constant c => simp [lookupLocal, localHit]
          | call fn cargs ckwargs =>
            cases fn with
            | name g =>
              by_cases hg : g = "run_policy_gradient"
              · simp [lookupLocal, localHit, hg]
              · simpa [lookupLocal, localHit, hg] using ih
            | _ => simpa [lookupLocal, localHit] using ih
          | _ => simpa [lookupLocal, localHit] using ih
        · simpa [lookupLocal, localHit, ht] using ih
      | t₀ :: t₁ :: ts => simpa [lookupLocal, localHit] using ih
      | [PyExpr.constant c] => simpa [lookupLocal, localHit] using ih
      | [PyExpr.call f a k] => simpa [lookupLocal, localHit] using ih
      | [PyExpr.joinedStr vs] => simpa [lookupLocal, localHit] using ih
      | [PyExpr.formattedValue e] => simpa [lookupLocal, localHit] using ih
      | [PyExpr.tupleE es] => simpa [lookupLocal, localHit] using ih
      | [PyExpr.compareE e] => simpa [lookupLocal, localHit] using ih
      | [PyExpr.otherE] => simpa [lookupLocal, localHit] using ih
    | exprStmt v src => simpa [lookupLocal, localHit] using ih
    | functionDef n b src => simpa [lookupLocal, localHit] using ih
    | otherDef src => simpa [lookupLocal, localHit] using ih
    | ifStmt t src => simpa [lookupLocal, localHit] using ih
    | otherS src => simpa [lookupLocal, localHit] using ih

/-- Claim C7 fails as stated: with `x = "hello"` shadowed by
`x = run_policy_gradient()`, a constant single-target assignment to `x`
exists in the body, yet `get_arg_value` returns the bare name `"x"`, not
`"hello"`. -/
theorem claim_C7_counterexample :
    get_arg_value [] [PyExpr.name "x"] [] 0 none ctxC7 = ArgVal.str "x" ∧
    ArgVal.str "x" ≠ ArgVal.str "hello" := by
  constructor
  · rfl
  · decide

/-- Claim C7, amended: a bare name outside the reference table resolves
by a most-recent-first scan over single-target assignments to it; the
first constant assignment met yields its constant, but an assignment of
a `run_policy_gradient(...)` call met first stops the scan and yields the
bare name, as does exhausting the body. -/
theorem claim_C7_amended (refs : RefTable) (args : List PyExpr)
    (kwargs : List (Option String × PyExpr)) (i : Nat) (kw : Option String)
    (ctx : List PyStmt) (x : String)
    (h1 : findArg args kwargs i kw = some (.name x))
    (h2 : lookupAssoc refs x = none) :
    get_arg_value refs args kwargs i kw ctx = .str (localNameSpec ctx x) := by
  rw [get_arg_value_name refs args kwargs i kw ctx x h1, h2,
    lookupLocal_eq_findSome]
  rfl

/-- Claim C7 (amended), applied to the shadowed-constant body: the result
is the bare name. -/
theorem claim_C7_witness :
    get_arg_value [] [PyExpr.name "x"] [] 0 none ctxC7 =
      .str (localNameSpec ctxC7 "x") :=
  claim_C7_amended [] [PyExpr.name "x"] [] 0 none ctxC7 "x" rfl rfl

/-! ## Claim C4 -/

theorem isEmpty_eq_false_of_ne (s : String) (h : s ≠ "") : s.isEmpty = false := by
  cases he : s.isEmpty
  · rfl
  · exact absurd ((String.isEmpty_iff s).mp he) h

theorem format_content_call_link (refs : RefTable) (ri : String → Option String)
    (args : List PyExpr) (kwargs : List (Option String × PyExpr)) (ctx : List PyStmt) :
    format_content_call refs ri "link" args kwargs ctx =
      (match get_arg_value refs args kwargs 0 (some "title") ctx with
       | .pair t u => linkRender refs t (.str u)
       | .str t0 =>
         linkRender refs t0 (get_arg_value refs args kwargs 1 (some "url") ctx)) := by
  unfold format_content_call
  rw [if_neg (by decide : ¬ ("link" : String) = "text"), if_pos rfl]

theorem linkRender_of_nonempty (refs : RefTable) (t s : String) (hs : s ≠ "") :
    linkRender refs t (.str s) = "[" ++ t ++ "](" ++ s ++ ")" := by
  simp [linkRender, isEmpty_eq_false_of_ne s hs]

theorem isEmpty_empty_string : ("" : String).isEmpty = true := rfl

theorem linkRender_of_empty_found (refs : RefTable) (t : String)
    (r : String × String) (h : lookupAssoc refs t = some r) (hr : r.2 ≠ "") :
    linkRender refs t (.str "") = "[" ++ r.1 ++ "](" ++ r.2 ++ ")" := by
  simp [linkRender, h, isEmpty_eq_false_of_ne r.2 hr, isEmpty_empty_string]

theorem linkRender_of_empty_missing (refs : RefTable) (t : String)
    (h : lookupAssoc refs t = none) :
    linkRender refs t (.str "") = t := by
  simp [linkRender, h, isEmpty_empty_string]

/-- Claim C4: a `link` call renders `[title](url)` when both arguments
resolve to non-empty strings; with an absent or empty url and a title
found in the reference table, the stored pair is substituted into
`[title](url)`; and with an empty url and an unknown title, the bare
title is returned. -/
theorem claim_C4 (refs : RefTable) (ri : String → Option String)
    (args : List PyExpr) (kwargs : List (Option String × PyExpr)) (ctx : List PyStmt) :
    (∀ t u, get_arg_value refs args kwargs 0 (some "title") ctx = .str t →
      get_arg_value refs args kwargs 1 (some "url") ctx = .str u →
      t ≠ "" → u ≠ "" →
      format_content_call refs ri "link" args kwargs ctx =
        "[" ++ t ++ "](" ++ u ++ ")") ∧
    (∀ t r, get_arg_value refs args kwargs 0 (some "title") ctx = .str t →
      get_arg_value refs args kwargs 1 (some "url") ctx = .str "" →
      lookupAssoc refs t = some r → r.2 ≠ "" →
      format_content_call refs ri "link" args kwargs ctx =
        "[" ++ r.1 ++ "](" ++ r.2 ++ ")") ∧
    (∀ t, get_arg_value refs args kwargs 0 (some "title") ctx = .str t →
      get_arg_value refs args kwargs 1 (some "url") ctx = .str "" →
      lookupAssoc refs t = none →
      format_content_call refs ri "link" args kwargs ctx = t) := by
  refine ⟨?_, ?_, ?_⟩
  · intro t u h0 h1 ht hu
    have hstep : format_content_call refs ri "link" args kwargs ctx =
        linkRender refs t (get_arg_value refs args kwargs 1 (some "url") ctx) := by
      rw [format_content_call_link, h0]
    rw [hstep, h1]
    exact linkRender_of_nonempty refs t u hu
  · intro t r h0 h1 hl hr
    have hstep : format_content_call refs ri "link" args kwargs ctx =
        linkRender refs t (get_arg_value refs args kwargs 1 (some "url") ctx) := by
      rw [format_content_call_link, h0]
    rw [hstep, h1]
    exact linkRender_of_empty_found refs t r hl hr
  · intro t h0 h1 hl
    have hstep : format_content_call refs ri "link" args kwargs ctx =
        linkRender refs t (get_arg_value refs args kwargs 1 (some "url") ctx) := by
      rw [format_content_call_link, h0]
    rw [hstep, h1]
    exact linkRender_of_empty_missing refs t hl

/-- Claim C4, applied: an explicit title/url pair renders as a link; an
empty url with a known title substitutes the stored reference; an empty
url with an unknown title leaves the bare title. -/
theorem claim_C4_witness :
    format_content_call [("r", ("T", "U"))] noImage "link"
      [PyExpr.constant "t", PyExpr.constant "u"] [] [] =
      "[" ++ "t" ++ "](" ++ "u" ++ ")" ∧
    format_content_call [("r", ("T", "U"))] noImage "link"
      [PyExpr.constant "r"] [] [] =
      "[" ++ "T" ++ "](" ++ "U" ++ ")" ∧
    format_content_call [] noImage "link" [PyExpr.constant "t"] [] [] = "t" :=
  ⟨(claim_C4 [("r", ("T", "U"))] noImage
      [PyExpr.constant "t", PyExpr.constant "u"] [] []).1 "t" "u" rfl rfl
      (by decide) (by decide),
   (claim_C4 [("r", ("T", "U"))] noImage [PyExpr.constant "r"] [] []).2.1
      "r" ("T", "U") rfl rfl rfl (by decide),
   (claim_C4 [] noImage [PyExpr.constant "t"] [] []).2.2 "t" rfl rfl rfl⟩

/-! ## Claim C3 -/

theorem findSome?_singleton {α β : Type} (f : α → Option β) (a : α) :
    [a].findSome? f = f a := by
  cases h : f a <;> simp [List.findSome?_cons, h]

theorem lookupAssoc_targets_foldl (targets : List PyExpr) (refs : RefTable)
    (t₀ u₀ x : String) :
    lookupAssoc
      (targets.foldl
        (fun r t =>
          match t with
          | .name n => insertAssoc r n ((if t₀ = "" then n else t₀), u₀)
          | _ => r)
        refs) x =
      (if targets.any (fun t => match t with | .name n => n = x | _ => false)
       then some ((if t₀ = "" then x else t₀), u₀)
       else lookupAssoc refs x) := by
  induction targets generalizing refs with
  | nil => simp
  | cons t ts ih =>
    rw [List.foldl_cons, ih]
    cases t with
    | name n =>
      by_cases hany : (ts.any fun t => match t with | PyExpr.name m => m = x | _ => false) = true
      · simp [hany, List.any_cons]
      · by_cases hn : n = x
        · simp [hany, List.any_cons, hn, lookupAssoc_insertAssoc]
        · simp [hany, List.any_cons, hn, lookupAssoc_insertAssoc]
    | constant v => simp [List.any_cons]
    | call fn a k => simp [List.any_cons]
    | joinedStr vs => simp [List.any_cons]
    | formattedValue e => simp [List.any_cons]
    | tupleE es => simp [List.any_cons]
    | compareE e => simp [List.any_cons]
    | otherE => simp [List.any_cons]

theorem lookupAssoc_scanStep (refs : RefTable) (stmt : PyStmt) (x : String) :
    lookupAssoc (scanStep refs stmt) x =
      (refEntrySpec x stmt).or (lookupAssoc refs x) := by
  cases stmt with
  | assign targets v src =>
    cases v with
    | call fn args kwargs =>
      cases fn with
      | name fid =>
        by_cases hfid : fid = "Reference"
        · subst hfid
          by_cases hu : get_arg_value_simple args kwargs 1 (some "url") = ""
          · simp [scanStep, refEntrySpec, hu, ite_self]
          · rw [show scanStep refs (.assign targets (.call (.name "Reference") args kwargs) src) =
                targets.foldl
                  (fun r t =>
                    match t with
                    | .name n =>
                      insertAssoc r n
                        ((if get_arg_value_simple args kwargs 0 (some "title") = ""
                          then n else get_arg_value_simple args kwargs 0 (some "title")),
                         get_arg_value_simple args kwargs 1 (some "url"))
                    | _ => r)
                  refs
              from by simp [scanStep, hu]]
            rw [lookupAssoc_targets_foldl]
            by_cases hany : targets.any
                (fun t => match t with | .name n => n = x | _ => false) = true
            · simp [refEntrySpec, hany, hu]
            · simp [refEntrySpec, hany, hu]
        · by_cases harx : fid = "arxiv_reference"
          · subst harx
            by_cases hu : get_arg_value_simple args kwargs 0 none = ""
            · simp [scanStep, refEntrySpec, hfid, hu, ite_self]
            · rw [show scanStep refs (.assign targets (.call (.name "arxiv_reference") args kwargs) src) =
                  targets.foldl
                    (fun r t =>
                      match t with
                      | .name n =>
                        insertAssoc r n
                          ((if ("" : String) = "" then n else ""),
                           get_arg_value_simple args kwargs 0 none)
                      | _ => r)
                    refs
                from by simp [scanStep, hfid, hu]]
              rw [lookupAssoc_targets_foldl]
              by_cases hany : targets.any
                  (fun t => match t with | .name n => n = x | _ => false) = true
              · simp [refEntrySpec, hany, hfid, hu]
              · simp [refEntrySpec, hany, hfid, hu]
          · simp [scanStep, refEntrySpec, hfid, harx, ite_self]
      | constant c => simp [scanStep, refEntrySpec]
      | call f2 a2 k2 => simp [scanStep, refEntrySpec]
      | joinedStr vs => simp [scanStep, refEntrySpec]
      | formattedValue e => simp [scanStep, refEntrySpec]
      | tupleE es => simp [scanStep, refEntrySpec]
      | compareE e => simp [scanStep, refEntrySpec]
      | otherE => simp [scanStep, refEntrySpec]
    | constant c => simp [scanStep, refEntrySpec]
    | name nm => simp [scanStep, refEntrySpec]
    | joinedStr vs => simp [scanStep, refEntrySpec]
    | formattedValue e => simp [scanStep, refEntrySpec]
    | tupleE es => simp [scanStep, refEntrySpec]
    | compareE e => simp [scanStep, refEntrySpec]
    | otherE => simp [scanStep, refEntrySpec]
  | exprStmt v src => simp [scanStep, refEntrySpec]
  | functionDef n b src => simp [scanStep, refEntrySpec]
  | otherDef src => simp [scanStep, refEntrySpec]
  | ifStmt t src => simp [scanStep, refEntrySpec]
  | otherS src => simp [scanStep, refEntrySpec]

theorem lookupAssoc_foldl_scanStep (body : List PyStmt) (refs : RefTable) (x : String) :
    lookupAssoc (body.foldl scanStep refs) x =
      (body.reverse.findSome? (refEntrySpec x)).or (lookupAssoc refs x) := by
  induction body generalizing refs with
  | nil => simp
  | cons s rest ih =>
    rw [List.foldl_cons, ih, lookupAssoc_scanStep,
      List.reverse_cons, List.findSome?_append, findSome?_singleton,
      Option.or_assoc]

/-- Claim C3: the reference table built by scanning a tree's top-level
body maps a name `x` to exactly what the most recent contributing
assignment says: `x = Reference(...)` with a constant non-empty url
yields `(title or x, url)` (the bound name standing in for an absent or
empty title), `x = arxiv_reference(url)` with a constant non-empty
positional url yields `(x, url)`, while assignments without such a url
contribute nothing; a name with no contributing assignment is absent. -/
theorem claim_C3 (body : List PyStmt) (x : String) :
    lookupAssoc (_scan_for_refs body) x =
      body.reverse.findSome? (refEntrySpec x) := by
  rw [_scan_for_refs, lookupAssoc_foldl_scanStep]
  simp [lookupAssoc]

/-! ## Claim C10 -/

/-- Filter for the entry under key `x`, as scanned by `findSome?`. -/
def keyed {α : Type} (x : String) (e : String × α) : Option α :=
  if e.1 = x then some e.2 else none

theorem mem_keys_insertAssoc {α : Type} (r : List (String × α)) (n x : String) (v : α)
    (h : x ∈ (insertAssoc r n v).map Prod.fst) :
    x ∈ r.map Prod.fst ∨ x = n := by
  induction r with
  | nil =>
    simp [insertAssoc] at h
    exact Or.inr h
  | cons p rest ih =>
    obtain ⟨k, w⟩ := p
    by_cases hk : k = n
    · subst hk
      simp only [insertAssoc, if_pos rfl, List.map_cons] at h
      exact Or.inl (by simpa using h)
    · simp only [insertAssoc, if_neg hk, List.map_cons, List.mem_cons] at h
      rcases h with h | h
      · exact Or.inl (by simp [h])
      · rcases ih h with h' | h'
        · exact Or.inl (by simp [h'])
        · exact Or.inr h'

theorem keysNodup_insertAssoc {α : Type} (r : List (String × α)) (n : String) (v : α)
    (h : (r.map Prod.fst).Nodup) : ((insertAssoc r n v).map Prod.fst).Nodup := by
  induction r with
  | nil => simp [insertAssoc]
  | cons p rest ih =>
    obtain ⟨k, w⟩ := p
    simp only [List.map_cons, List.nodup_cons] at h
    by_cases hk : k = n
    · subst hk
      simpa [insertAssoc, List.nodup_cons] using h
    · simp only [insertAssoc, if_neg hk, List.map_cons, List.nodup_cons]
      refine ⟨?_, ih h.2⟩
      intro hmem
      rcases mem_keys_insertAssoc rest n k v hmem with h' | h'
      · exact h.1 h'
      · exact hk h'

theorem keysNodup_foldl {α β : Type} (step : List (String × α) → β → List (String × α))
    (hstep : ∀ r b, (r.map Prod.fst).Nodup → ((step r b).map Prod.fst).Nodup)
    (l : List β) :
    ∀ r : List (String × α), (r.map Prod.fst).Nodup →
      ((l.foldl step r).map Prod.fst).Nodup := by
  induction l with
  | nil => intro r h; simpa using h
  | cons b bs ih =>
    intro r h
    rw [List.foldl_cons]
    exact ih (step r b) (hstep r b h)

theorem keysNodup_scanStep (refs : RefTable) (stmt : PyStmt)
    (h : (refs.map Prod.fst).Nodup) : ((scanStep refs stmt).map Prod.fst).Nodup := by
  cases stmt with
  | assign targets v src =>
    cases v with
    | call fn args kwargs =>
      cases fn with
      | name fid =>
        show ((scanStep refs (.assign targets (.call (.name fid) args kwargs) src)).map
          Prod.fst).Nodup
        rw [scanStep]
        repeat' split
        all_goals
          first
            | exact h
            | (refine keysNodup_foldl _ ?_ targets refs h
               intro r t hr
               cases t with
               | name n => exact keysNodup_insertAssoc r n _ hr
               | constant c => exact hr
               | call f2 a2 k2 => exact hr
               | joinedStr vs => exact hr
               | formattedValue e => exact hr
               | tupleE es => exact hr
               | compareE e => exact hr
               | otherE => exact hr)
      | constant c => exact h
      | call f2 a2 k2 => exact h
      | joinedStr vs => exact h
      | formattedValue e => exact h
      | tupleE es => exact h
      | compareE e => exact h
      | otherE => exact h
    | constant c => exact h
    | name nm => exact h
    | joinedStr vs => exact h
    | formattedValue e => exact h
    | tupleE es => exact h
    | compareE e => exact h
    | otherE => exact h
  | exprStmt v src => exact h
  | functionDef n b src => exact h
  | otherDef src => exact h
  | ifStmt t src => exact h
  | otherS src => exact h

theorem keysNodup_scan_for_refs (body : List PyStmt) :
    ((_scan_for_refs body).map Prod.fst).Nodup :=
  keysNodup_foldl scanStep keysNodup_scanStep body [] (by simp)

theorem findSome?_keyed_none {α : Type} (l : List (String × α)) (x : String)
    (h : x ∉ l.map Prod.fst) : l.findSome? (keyed x) = none := by
  induction l with
  | nil => rfl
  | cons e rest ih =>
    simp only [List.map_cons, List.mem_cons, not_or] at h
    have he : keyed x e = none := by
      have hne : ¬ e.1 = x := fun hc => h.1 hc.symm
      simp [keyed, hne]
    rw [List.findSome?_cons, he]
    exact ih h.2

theorem lookupAssoc_eq_none_of_not_mem {α : Type} (l : List (String × α)) (x : String)
    (h : x ∉ l.map Prod.fst) : lookupAssoc l x = none := by
  induction l with
  | nil => rfl
  | cons e rest ih =>
    obtain ⟨k, w⟩ := e
    simp only [List.map_cons, List.mem_cons, not_or] at h
    rw [lookupAssoc, if_neg (fun hc => h.1 hc.symm)]
    exact ih h.2

theorem findSome?_keyed_reverse {α : Type} (r : List (String × α)) (x : String)
    (h : (r.map Prod.fst).Nodup) :
    r.reverse.findSome? (keyed x) = lookupAssoc r x := by
  induction r with
  | nil => rfl
  | cons e rest ih =>
    obtain ⟨k, w⟩ := e
    simp only [List.map_cons, List.nodup_cons] at h
    rw [List.reverse_cons, List.findSome?_append, findSome?_singleton, ih h.2]
    by_cases hk : k = x
    · subst hk
      rw [lookupAssoc_eq_none_of_not_mem rest k h.1]
      simp [lookupAssoc, keyed, Option.or]
    · rw [lookupAssoc, if_neg hk]
      have hke : keyed x (k, w) = none := by simp [keyed, hk]
      rw [hke]
      cases hl : lookupAssoc rest x <;> simp [Option.or]

theorem lookupAssoc_updateTable (base add : RefTable) (x : String) :
    lookupAssoc (updateTable base add) x =
      (add.reverse.findSome? (keyed x)).or (lookupAssoc base x) := by
  induction add generalizing base with
  | nil => simp [updateTable]
  | cons e rest ih =>
    have hstep : updateTable base (e :: rest) =
        updateTable (insertAssoc base e.1 e.2) rest := by
      simp [updateTable]
    rw [hstep, ih, List.reverse_cons, List.findSome?_append, findSome?_singleton,
      Option.or_assoc]
    congr 1
    rw [lookupAssoc_insertAssoc]
    by_cases he : e.1 = x
    · simp [keyed, he]
    · have : ¬ x = e.1 := fun hc => he hc.symm
      simp [keyed, he]

/-- Claim C10: an entry scanned from the input file's own tree wins over
a same-named entry from `references.py`, and without a readable
`references.py` the table looks up exactly as the input file's scan. -/
theorem claim_C10 (ext : Option (List PyStmt)) (cur : List PyStmt) (n : String) :
    (∀ e, lookupAssoc (_scan_for_refs cur) n = some e →
      lookupAssoc (load_references ext cur) n = some e) ∧
    lookupAssoc (load_references none cur) n = lookupAssoc (_scan_for_refs cur) n := by
  have hchar : ∀ base, lookupAssoc (updateTable base (_scan_for_refs cur)) n =
      (lookupAssoc (_scan_for_refs cur) n).or (lookupAssoc base n) := by
    intro base
    rw [lookupAssoc_updateTable,
      findSome?_keyed_reverse (_scan_for_refs cur) n (keysNodup_scan_for_refs cur)]
  constructor
  · intro e he
    cases ext with
    | none =>
      show lookupAssoc (updateTable [] (_scan_for_refs cur)) n = some e
      rw [hchar, he]
      rfl
    | some t =>
      show lookupAssoc (updateTable (updateTable [] (_scan_for_refs t))
        (_scan_for_refs cur)) n = some e
      rw [hchar, he]
      rfl
  · show lookupAssoc (updateTable [] (_scan_for_refs cur)) n = _
    rw [hchar]
    simp [lookupAssoc]

/-- Claim C10, applied: with `r` defined in both trees, the table holds
the input file's url; with no external tree it equals the input scan. -/
theorem claim_C10_witness :
    lookupAssoc (load_references (some extTreeC10) curTreeC10) "r" =
      some ("r", "http://cur") ∧
    lookupAssoc (load_references none curTreeC10) "r" =
      lookupAssoc (_scan_for_refs curTreeC10) "r" :=
  ⟨(claim_C10 (some extTreeC10) curTreeC10 "r").1 ("r", "http://cur") rfl,
   (claim_C10 none curTreeC10 "r").2⟩

/-! ## `process_body` step characterization -/

theorem appendCode_eq (st : St) (src : String) :
    appendCode st src =
      { cells := st.cells ++ mdCellList st.cm, cm := [],
        cc := st.cc ++ (if src = "" then [] else [src ++ "\n"]) } := by
  by_cases h : src = ""
  · simp [appendCode, h, flush_markdown_eq]
  · simp [appendCode, h, flush_markdown_eq]

theorem tupleLine_isSome (refs : RefTable) (ri : String → Option String)
    (ctx : List PyStmt) (elts : List PyExpr) :
    (tupleLine refs ri ctx elts).isSome = elts.all isContentCall := by
  induction elts with
  | nil => rfl
  | cons el rest ih =>
    cases el with
    | call fn args kwargs =>
      cases fn with
      | name f =>
        by_cases hf : f ∈ CONTENT_FUNCTIONS
        · rw [List.all_cons]
          have hcall : isContentCall (PyExpr.call (PyExpr.name f) args kwargs) = true := by
            simp [isContentCall, hf]
          rw [hcall]
          cases hrec : tupleLine refs ri ctx rest with
          | none =>
            rw [hrec] at ih
            simp only [tupleLine, if_pos hf, hrec]
            simpa using ih.symm
          | some acc =>
            rw [hrec] at ih
            simp only [tupleLine, if_pos hf, hrec]
            simpa using ih.symm
        · simp [tupleLine, hf, isContentCall, List.all_cons]
      | constant c => simp [tupleLine, isContentCall, List.all_cons]
      | call f2 a2 k2 => simp [tupleLine, isContentCall, List.all_cons]
      | joinedStr vs => simp [tupleLine, isContentCall, List.all_cons]
      | formattedValue e => simp [tupleLine, isContentCall, List.all_cons]
      | tupleE es => simp [tupleLine, isContentCall, List.all_cons]
      | compareE e => simp [tupleLine, isContentCall, List.all_cons]
      | otherE => simp [tupleLine, isContentCall, List.all_cons]
    | constant c => simp [tupleLine, isContentCall, List.all_cons]
    | name nm => simp [tupleLine, isContentCall, List.all_cons]
    | joinedStr vs => simp [tupleLine, isContentCall, List.all_cons]
    | formattedValue e => simp [tupleLine, isContentCall, List.all_cons]
    | tupleE es => simp [tupleLine, isContentCall, List.all_cons]
    | compareE e => simp [tupleLine, isContentCall, List.all_cons]
    | otherE => simp [tupleLine, isContentCall, List.all_cons]

theorem tupleLine_eq_none (refs : RefTable) (ri : String → Option String)
    (ctx : List PyStmt) (elts : List PyExpr)
    (h : elts.all isContentCall = false) : tupleLine refs ri ctx elts = none := by
  have hs := tupleLine_isSome refs ri ctx elts
  rw [h] at hs
  cases hl : tupleLine refs ri ctx elts
  · rfl
  · rw [hl] at hs
    simp at hs

theorem process_body_cons_content (fns : List (String × List PyStmt)) (refs : RefTable)
    (ri : String → Option String) (fuel : Nat) (ctx : List PyStmt) (st : St)
    (s : PyStmt) (rest : List PyStmt) (hc : isContentStmt s = true) :
    process_body fns refs ri (fuel + 1) ctx st (s :: rest) =
      process_body fns refs ri fuel ctx
        { cells := st.cells ++ cdCellList st.cc,
          cm := st.cm ++ mdApp refs ri ctx s, cc := [] } rest := by
  cases s with
  | exprStmt v src =>
    cases v with
    | call fn args kwargs =>
      cases fn with
      | name f =>
        have hf : f ∈ CONTENT_FUNCTIONS := by simpa [isContentStmt] using hc
        by_cases hcc : format_content_call refs ri f args kwargs ctx = ""
        · simp only [process_body, if_pos hf, hcc, flush_code_eq]
          simp [mdApp, stmtContent, hcc]
        · simp only [process_body, if_pos hf, hcc, flush_code_eq]
          simp [mdApp, stmtContent, hcc]
      | constant c => simp [isContentStmt] at hc
      | call f2 a2 k2 => simp [isContentStmt] at hc
      | joinedStr vs => simp [isContentStmt] at hc
      | formattedValue e => simp [isContentStmt] at hc
      | tupleE es => simp [isContentStmt] at hc
      | compareE e => simp [isContentStmt] at hc
      | otherE => simp [isContentStmt] at hc
    | constant c => simp [isContentStmt] at hc
    | name nm => simp [isContentStmt] at hc
    | joinedStr vs => simp [isContentStmt] at hc
    | formattedValue e => simp [isContentStmt] at hc
    | tupleE es => simp [isContentStmt] at hc
    | compareE e => simp [isContentStmt] at hc
    | otherE => simp [isContentStmt] at hc
  | assign targets v src => simp [isContentStmt] at hc
  | functionDef n b src => simp [isContentStmt] at hc
  | otherDef src => simp [isContentStmt] at hc
  | ifStmt t src => simp [isContentStmt] at hc
  | otherS src => simp [isContentStmt] at hc

theorem process_body_cons_plain (fns : List (String × List PyStmt)) (refs : RefTable)
    (ri : String → Option String) (fuel : Nat) (ctx : List PyStmt) (st : St)
    (s : PyStmt) (rest : List PyStmt)
    (hc : isContentStmt s = false) (hr : isRecurStmt fns s = false)
    (ht : isAllContentTuple s = false) :
    process_body fns refs ri (fuel + 1) ctx st (s :: rest) =
      process_body fns refs ri fuel ctx
        { cells := st.cells ++ mdCellList st.cm, cm := [],
          cc := st.cc ++ ccApp s } rest := by
  cases s with
  | exprStmt v src =>
    cases v with
    | call fn args kwargs =>
      cases fn with
      | name f =>
        have hf : f ∉ CONTENT_FUNCTIONS := by simpa [isContentStmt] using hc
        have hl : lookupAssoc fns f = none := by
          simp only [isRecurStmt, Bool.and_eq_false_iff] at hr
          rcases hr with hr | hr
          · exact absurd hf (by simpa using hr)
          · exact Option.not_isSome_iff_eq_none.mp (by simpa using hr)
        simp only [process_body, if_neg hf, hl, appendCode_eq]
        rfl
      | constant c =>
        simp only [process_body, appendCode_eq]
        rfl
      | call f2 a2 k2 =>
        simp only [process_body, appendCode_eq]
        rfl
      | joinedStr vs =>
        simp only [process_body, appendCode_eq]
        rfl
      | formattedValue e =>
        simp only [process_body, appendCode_eq]
        rfl
      | tupleE es =>
        simp only [process_body, appendCode_eq]
        rfl
      | compareE e =>
        simp only [process_body, appendCode_eq]
        rfl
      | otherE =>
        simp only [process_body, appendCode_eq]
        rfl
    | constant c =>
      simp only [process_body, appendCode_eq]
      rfl
    | name nm =>
      simp only [process_body, appendCode_eq]
      rfl
    | joinedStr vs =>
      simp only [process_body, appendCode_eq]
      rfl
    | formattedValue e =>
      simp only [process_body, appendCode_eq]
      rfl
    | tupleE es =>
      have hnone : tupleLine refs ri ctx es = none :=
        tupleLine_eq_none refs ri ctx es (by simpa [isAllContentTuple] using ht)
      simp only [process_body, hnone, appendCode_eq]
      rfl
    | compareE e =>
      simp only [process_body, appendCode_eq]
      rfl
    | otherE =>
      simp only [process_body, appendCode_eq]
      rfl
  | assign targets v src =>
    simp only [process_body, appendCode_eq]
    rfl
  | functionDef n b src =>
    simp only [process_body, appendCode_eq]
    rfl
  | otherDef src =>
    simp only [process_body, appendCode_eq]
    rfl
  | ifStmt t src =>
    simp only [process_body, appendCode_eq]
    rfl
  | otherS src =>
    simp only [process_body, appendCode_eq]
    rfl

theorem process_body_specCells (fns : List (String × List PyStmt)) (refs : RefTable)
    (ri : String → Option String) (ctx : List PyStmt) :
    ∀ (body : List PyStmt) (fuel : Nat) (st : St),
      PlainBody fns body → body.length ≤ fuel →
      flush_markdown (flush_code (process_body fns refs ri fuel ctx st body)) =
        { cells := st.cells ++ specCells refs ri ctx st.cm st.cc body,
          cm := [], cc := [] } := by
  intro body
  induction body with
  | nil =>
    intro fuel st hp hf
    have hpb : process_body fns refs ri fuel ctx st [] = st := by
      cases fuel <;> rfl
    rw [hpb, flush_code_eq, flush_markdown_eq]
    simp [specCells, cdCellList, mdCellList]
  | cons s rest ih =>
    intro fuel st hp hf
    cases fuel with
    | zero => simp at hf
    | succ f =>
      have hf' : rest.length ≤ f := by
        simpa [List.length_cons, Nat.succ_le_succ_iff] using hf
      have hp' : PlainBody fns rest := fun t ht => hp t (List.mem_cons_of_mem s ht)
      by_cases hc : isContentStmt s = true
      · rw [process_body_cons_content fns refs ri f ctx st s rest hc,
          ih f _ hp' hf']
        simp only [specCells, hc, if_true]
        simp [List.append_assoc]
      · have hcf : isContentStmt s = false := by
          cases hcs : isContentStmt s
          · rfl
          · exact absurd hcs hc
        rw [process_body_cons_plain fns refs ri f ctx st s rest hcf
            (hp s (List.mem_cons_self s rest)).1 (hp s (List.mem_cons_self s rest)).2,
          ih f _ hp' hf']
        simp only [specCells, hcf]
        simp [List.append_assoc]

/-! ## Run decomposition of `specCells` -/

theorem mdCellList_nil : mdCellList [] = [] := rfl

theorem cdCellList_nil : cdCellList [] = [] := rfl

theorem specCells_content_run (refs : RefTable) (ri : String → Option String)
    (ctx : List PyStmt) :
    ∀ (run rest : List PyStmt) (cm : List String),
      (∀ s ∈ run, isContentStmt s = true) →
      (∀ s, rest.head? = some s → isContentStmt s = false) →
      specCells refs ri ctx cm [] (run ++ rest) =
        mdCellList (cm ++ List.flatten (run.map (mdApp refs ri ctx))) ++
          specCells refs ri ctx [] [] rest := by
  intro run
  induction run with
  | nil =>
    intro rest cm hrun hrest
    cases rest with
    | nil => simp [specCells, cdCellList_nil, mdCellList_nil]
    | cons p rest2 =>
      have hp : isContentStmt p = false := hrest p rfl
      simp [specCells, hp, cdCellList_nil, mdCellList_nil]
  | cons c run' ih =>
    intro rest cm hrun hrest
    have hc : isContentStmt c = true := hrun c (List.mem_cons_self c run')
    rw [List.cons_append]
    simp only [specCells, hc, if_true, cdCellList, List.isEmpty_nil]
    rw [ih rest (cm ++ mdApp refs ri ctx c)
      (fun s hs => hrun s (List.mem_cons_of_mem c hs)) hrest]
    simp [List.append_assoc]

theorem specCells_plain_run (refs : RefTable) (ri : String → Option String)
    (ctx : List PyStmt) :
    ∀ (run rest : List PyStmt) (cc : List String),
      (∀ s ∈ run, isContentStmt s = false) →
      (∀ s, rest.head? = some s → isContentStmt s = true) →
      specCells refs ri ctx [] cc (run ++ rest) =
        cdCellList (cc ++ List.flatten (run.map ccApp)) ++
          specCells refs ri ctx [] [] rest := by
  intro run
  induction run with
  | nil =>
    intro rest cc hrun hrest
    cases rest with
    | nil => simp [specCells, cdCellList_nil, mdCellList_nil]
    | cons p rest2 =>
      have hp : isContentStmt p = true := hrest p rfl
      simp [specCells, hp, cdCellList_nil, mdCellList_nil]
  | cons c run' ih =>
    intro rest cc hrun hrest
    have hc : isContentStmt c = false := hrun c (List.mem_cons_self c run')
    rw [List.cons_append]
    simp only [specCells, hc, Bool.false_eq_true, if_false, mdCellList, List.isEmpty_nil]
    rw [ih rest (cc ++ ccApp c)
      (fun s hs => hrun s (List.mem_cons_of_mem c hs)) hrest]
    simp [List.append_assoc]

theorem runsAux_first {α : Type} (cls : α → Bool) (a : α) (l : List α) :
    ∃ tl more, runsAux cls (a :: l) = (cls a, a :: tl) :: more := by
  induction l generalizing a with
  | nil => exact ⟨[], [], rfl⟩
  | cons b l' ih =>
    obtain ⟨tl, more, hb⟩ := ih b
    have hstep : runsAux cls (a :: b :: l') =
        (match runsAux cls (b :: l') with
         | [] => [(cls a, [a])]
         | (b', run') :: more' =>
           if cls a = b' then (b', a :: run') :: more'
           else (cls a, [a]) :: (b', run') :: more') := rfl
    by_cases hab : cls a = cls b
    · refine ⟨b :: tl, more, ?_⟩
      rw [hstep, hb]
      show (if cls a = cls b then (cls b, a :: b :: tl) :: more
            else (cls a, [a]) :: (cls b, b :: tl) :: more) =
        (cls a, a :: b :: tl) :: more
      rw [if_pos hab, hab]
    · refine ⟨[], (cls b, b :: tl) :: more, ?_⟩
      rw [hstep, hb]
      show (if cls a = cls b then (cls b, a :: b :: tl) :: more
            else (cls a, [a]) :: (cls b, b :: tl) :: more) =
        (cls a, [a]) :: (cls b, b :: tl) :: more
      rw [if_neg hab]

theorem runsAux_append {α : Type} (cls : α → Bool) (b : Bool) :
    ∀ (x : α) (run rest : List α),
      cls x = b → (∀ y ∈ run, cls y = b) →
      (∀ r, rest.head? = some r → cls r = !b) →
      runsAux cls (x :: run ++ rest) = (b, x :: run) :: runsAux cls rest := by
  intro x run
  induction run generalizing x with
  | nil =>
    intro rest hx hrun hrest
    cases rest with
    | nil => simp [runsAux, hx]
    | cons r rest2 =>
      have hr : cls r = !b := hrest r rfl
      obtain ⟨tl, more, hrw⟩ := runsAux_first cls r rest2
      have hne : ¬ cls x = cls r := by
        rw [hx, hr]
        cases b <;> simp
      have hstep : runsAux cls (x :: r :: rest2) =
          (match runsAux cls (r :: rest2) with
           | [] => [(cls x, [x])]
           | (b', run') :: more' =>
             if cls x = b' then (b', x :: run') :: more'
             else (cls x, [x]) :: (b', run') :: more') := rfl
      simp only [List.cons_append, List.nil_append]
      rw [hstep, hrw]
      show (if cls x = cls r then (cls r, x :: r :: tl) :: more
            else (cls x, [x]) :: (cls r, r :: tl) :: more) =
        (b, [x]) :: ((cls r, r :: tl) :: more)
      rw [if_neg hne, hx]
  | cons y run' ih =>
    intro rest hx hrun hrest
    have hy : cls y = b := hrun y (List.mem_cons_self y run')
    have hih := ih y rest hy
      (fun s hs => hrun s (List.mem_cons_of_mem y hs)) hrest
    have hstep : runsAux cls (x :: y :: (run' ++ rest)) =
        (match runsAux cls (y :: (run' ++ rest)) with
         | [] => [(cls x, [x])]
         | (b', run'') :: more' =>
           if cls x = b' then (b', x :: run'') :: more'
           else (cls x, [x]) :: (b', run'') :: more') := rfl
    simp only [List.cons_append] at hih ⊢
    rw [hstep, hih]
    show (if cls x = b then (b, x :: y :: run') :: runsAux cls rest
          else (cls x, [x]) :: (b, y :: run') :: runsAux cls rest) =
      (b, x :: y :: run') :: runsAux cls rest
    rw [if_pos hx]

theorem mem_takeWhile_true {α : Type} (p : α → Bool) (l : List α) :
    ∀ x, x ∈ l.takeWhile p → p x = true := by
  induction l with
  | nil => intro x hx; simp [List.takeWhile] at hx
  | cons a l' ih =>
    intro x hx
    by_cases hp : p a = true
    · rw [List.takeWhile_cons, if_pos hp] at hx
      rcases List.mem_cons.mp hx with h | h
      · exact h ▸ hp
      · exact ih x h
    · rw [List.takeWhile_cons, if_neg hp] at hx
      simp at hx

theorem head?_dropWhile_false {α : Type} (p : α → Bool) (l : List α) :
    ∀ x, (l.dropWhile p).head? = some x → p x = false := by
  induction l with
  | nil => intro x hx; simp [List.dropWhile] at hx
  | cons a l' ih =>
    intro x hx
    by_cases hp : p a = true
    · rw [List.dropWhile_cons, if_pos hp] at hx
      exact ih x hx
    · rw [List.dropWhile_cons, if_neg hp] at hx
      have hax : a = x := by simpa using hx
      subst hax
      exact Bool.eq_false_iff.mpr hp

theorem length_dropWhile_le {α : Type} (p : α → Bool) (l : List α) :
    (l.dropWhile p).length ≤ l.length := by
  induction l with
  | nil => simp [List.dropWhile]
  | cons a l' ih =>
    by_cases hp : p a = true
    · rw [List.dropWhile_cons, if_pos hp]
      exact Nat.le_succ_of_le ih
    · rw [List.dropWhile_cons, if_neg hp]

theorem specCells_eq_runs (refs : RefTable) (ri : String → Option String)
    (ctx : List PyStmt) (body : List PyStmt) :
    specCells refs ri ctx [] [] body =
      specCellsOfRuns refs ri ctx (runsAux isContentStmt body) := by
  suffices h : ∀ (n : Nat) (l : List PyStmt), l.length ≤ n →
      specCells refs ri ctx [] [] l =
        specCellsOfRuns refs ri ctx (runsAux isContentStmt l) from
    h body.length body le_rfl
  intro n
  induction n with
  | zero =>
    intro l hl
    have : l = [] := List.eq_nil_of_length_eq_zero (Nat.le_zero.mp hl)
    subst this
    rfl
  | succ n ihn =>
    intro l hl
    cases l with
    | nil => rfl
    | cons s rest =>
      have hsplit : rest.takeWhile isContentStmt ++ rest.dropWhile isContentStmt
          = rest := List.takeWhile_append_dropWhile isContentStmt rest
      have hrest_le : rest.length ≤ n := by
        simpa [List.length_cons, Nat.succ_le_succ_iff] using hl
      by_cases hc : isContentStmt s = true
      · have hmem : ∀ y ∈ s :: rest.takeWhile isContentStmt, isContentStmt y = true := by
          intro y hy
          rcases List.mem_cons.mp hy with h | h
          · exact h ▸ hc
          · exact mem_takeWhile_true isContentStmt rest y h
        have hhead : ∀ r, (rest.dropWhile isContentStmt).head? = some r →
            isContentStmt r = (!true) := by
          intro r hr
          simpa using head?_dropWhile_false isContentStmt rest r hr
        have hrw := runsAux_append isContentStmt true s
          (rest.takeWhile isContentStmt) (rest.dropWhile isContentStmt)
          hc (fun y hy => mem_takeWhile_true isContentStmt rest y hy) hhead
        rw [List.cons_append, hsplit] at hrw
        have hL := specCells_content_run refs ri ctx
          (s :: rest.takeWhile isContentStmt) (rest.dropWhile isContentStmt) []
          hmem (fun r hr => head?_dropWhile_false isContentStmt rest r hr)
        rw [List.cons_append, hsplit] at hL
        rw [hL, hrw,
          ihn (rest.dropWhile isContentStmt)
            (Nat.le_trans (length_dropWhile_le isContentStmt rest) hrest_le)]
        simp [specCellsOfRuns, runCell]
      · have hcf : isContentStmt s = false := by
          cases hcs : isContentStmt s
          · rfl
          · exact absurd hcs hc
        have hmem : ∀ y ∈ s :: rest.takeWhile (fun t => !isContentStmt t),
            isContentStmt y = false := by
          intro y hy
          rcases List.mem_cons.mp hy with h | h
          · exact h ▸ hcf
          · have := mem_takeWhile_true (fun t => !isContentStmt t) rest y h
            simpa using this
        have hhead : ∀ r, (rest.dropWhile (fun t => !isContentStmt t)).head? = some r →
            isContentStmt r = true := by
          intro r hr
          have := head?_dropWhile_false (fun t => !isContentStmt t) rest r hr
          simpa using this
        have hsplit' : rest.takeWhile (fun t => !isContentStmt t) ++
            rest.dropWhile (fun t => !isContentStmt t) = rest :=
          List.takeWhile_append_dropWhile (fun t => !isContentStmt t) rest
        have hrw := runsAux_append isContentStmt false s
          (rest.takeWhile (fun t => !isContentStmt t))
          (rest.dropWhile (fun t => !isContentStmt t))
          hcf (fun y hy => hmem y (List.mem_cons_of_mem s hy))
          (fun r hr => by simpa using hhead r hr)
        rw [List.cons_append, hsplit'] at hrw
        have hL := specCells_plain_run refs ri ctx
          (s :: rest.takeWhile (fun t => !isContentStmt t))
          (rest.dropWhile (fun t => !isContentStmt t)) []
          hmem hhead
        rw [List.cons_append, hsplit'] at hL
        rw [hL, hrw,
          ihn (rest.dropWhile (fun t => !isContentStmt t))
            (Nat.le_trans (length_dropWhile_le _ rest) hrest_le)]
        simp [specCellsOfRuns, runCell]

/-! ## Claim C1 -/

/-- Claim C1 fails as stated: processing a `system_text` call (whose
formatted result is empty) followed by a one-element tuple of a `text`
call leaves the code buffer empty — the tuple statement's source is
never appended to the code buffer, and no empty string reaches the
markdown buffer. -/
theorem claim_C1_counterexample :
    process_body [] [] noImage 2 bodyC1 { cells := [], cm := [], cc := [] } bodyC1 =
      { cells := [], cm := ["a"], cc := [] } ∧
    (process_body [] [] noImage 2 bodyC1 { cells := [], cm := [], cc := [] } bodyC1).cc ≠
      ["text(\"a\"),\n"] :=
  ⟨rfl, by decide⟩

/-- Claim C1, amended: a bare content-function call statement flushes the
code buffer (so its source never reaches it) and appends its formatted
result to the markdown buffer when that result is non-empty (an empty
result is dropped); every statement that is neither a content call, nor a
call to a locally defined function (recursively processed), nor an
all-content tuple (formatted to markdown) flushes the markdown buffer and
appends its available source text to the code buffer. -/
theorem claim_C1_amended (fns : List (String × List PyStmt)) (refs : RefTable)
    (ri : String → Option String) (fuel : Nat) (ctx : List PyStmt) (st : St)
    (s : PyStmt) :
    (isContentStmt s = true →
      process_body fns refs ri (fuel + 1) ctx st [s] =
        { cells := st.cells ++ cdCellList st.cc,
          cm := st.cm ++ mdApp refs ri ctx s, cc := [] }) ∧
    (isContentStmt s = false → isRecurStmt fns s = false →
      isAllContentTuple s = false →
      process_body fns refs ri (fuel + 1) ctx st [s] =
        { cells := st.cells ++ mdCellList st.cm, cm := [],
          cc := st.cc ++ ccApp s }) := by
  constructor
  · intro hc
    rw [process_body_cons_content fns refs ri fuel ctx st s [] hc]
    cases fuel <;> rfl
  · intro hc hr ht
    rw [process_body_cons_plain fns refs ri fuel ctx st s [] hc hr ht]
    cases fuel <;> rfl

/-- Claim C1 (amended), applied to a `text` call and to a plain
statement. -/
theorem claim_C1_witness :
    process_body [] [] noImage 1 [] { cells := [], cm := [], cc := [] }
        [.exprStmt (.call (.name "text") [.constant "w"] []) "text(\"w\")"] =
      { cells := [], cm := ["w"], cc := [] } ∧
    process_body [] [] noImage 1 [] { cells := [], cm := [], cc := [] }
        [.otherS "z = 3"] =
      { cells := [], cm := [], cc := ["z = 3\n"] } := by
  constructor
  · exact ((claim_C1_amended [] [] noImage 0 [] { cells := [], cm := [], cc := [] }
      (.exprStmt (.call (.name "text") [.constant "w"] []) "text(\"w\")")).1
      (by decide)).trans (by decide)
  · exact ((claim_C1_amended [] [] noImage 0 [] { cells := [], cm := [], cc := [] }
      (.otherS "z = 3")).2 rfl rfl rfl).trans (by decide)

/-! ## Claim C2 -/

/-- Claim C2 fails as stated: two plain assignments followed by a
`system_text` call produce a single code cell whose source joins the two
segments with a newline; the maximal content run consisting of the
`system_text` statement yields no markdown cell at all, and the code
cell's source is not the bare concatenation of the segments. -/
theorem claim_C2_counterexample :
    (flush_markdown (flush_code
        (process_body [] [] noImage 3 bodyC2 { cells := [], cm := [], cc := [] }
          bodyC2))).cells = [Cell.code "x = 1\ny = 2\n"] ∧
    (∀ s, Cell.markdown s ∉
      (flush_markdown (flush_code
          (process_body [] [] noImage 3 bodyC2 { cells := [], cm := [], cc := [] }
            bodyC2))).cells) := by
  constructor
  · rfl
  · intro s
    rw [show (flush_markdown (flush_code
        (process_body [] [] noImage 3 bodyC2 { cells := [], cm := [], cc := [] }
          bodyC2))).cells = [Cell.code "x = 1\ny = 2\n"] from rfl]
    simp

/-- Claim C2, amended: over a body containing no calls to locally
defined functions and no all-content tuple statements, the finally
flushed cell list is exactly one cell per maximal run of like-classified
statements, skipping empty runs: a content run yields one markdown cell
joining its non-empty formatted results with blank lines plus a trailing
newline — no cell when all results are empty — and a plain run yields
one code cell concatenating its available source segments each followed
by a newline, right-stripped, plus a trailing newline — no cell when no
segment is available. -/
theorem claim_C2_amended (fns : List (String × List PyStmt)) (refs : RefTable)
    (ri : String → Option String) (fuel : Nat) (body : List PyStmt)
    (hplain : PlainBody fns body) (hfuel : body.length ≤ fuel) :
    (flush_markdown (flush_code
        (process_body fns refs ri fuel body { cells := [], cm := [], cc := [] }
          body))).cells =
      specCellsOfRuns refs ri body (runsAux isContentStmt body) := by
  rw [process_body_specCells fns refs ri body body fuel
    { cells := [], cm := [], cc := [] } hplain hfuel]
  show [] ++ specCells refs ri body [] [] body = _
  rw [List.nil_append, specCells_eq_runs]

/-- Claim C2 (amended), applied to a code run, a content run, and a
trailing code run. -/
theorem claim_C2_witness :
    (flush_markdown (flush_code
        (process_body [] [] noImage 4 bodyW2 { cells := [], cm := [], cc := [] }
          bodyW2))).cells =
      specCellsOfRuns [] noImage bodyW2 (runsAux isContentStmt bodyW2) :=
  claim_C2_amended [] [] noImage 4 bodyW2
    (by
      intro s hs
      simp only [bodyW2, List.mem_cons, List.not_mem_nil, or_false] at hs
      rcases hs with rfl | rfl | rfl | rfl <;> exact ⟨rfl, rfl⟩)
    (by decide)

/-! ## Claim C5 -/

theorem lookupAssoc_of_mem_nodup {α : Type} (r : List (String × α)) (k : String) (v : α)
    (hnd : (r.map Prod.fst).Nodup) (hm : (k, v) ∈ r) : lookupAssoc r k = some v := by
  induction r with
  | nil => simp at hm
  | cons e rest ih =>
    obtain ⟨k', w⟩ := e
    simp only [List.map_cons, List.nodup_cons] at hnd
    rcases List.mem_cons.mp hm with h | h
    · have hk : k = k' ∧ v = w := by simpa [Prod.ext_iff] using h
      rw [lookupAssoc, if_pos hk.1.symm, hk.2]
    · have hkmem : k ∈ rest.map Prod.fst := by
        have := List.mem_map_of_mem Prod.fst h
        simpa using this
      have hne : ¬ k' = k := fun hc => hnd.1 (hc ▸ hkmem)
      rw [lookupAssoc, if_neg hne]
      exact ih hnd.2 h

theorem keysNodup_functionsOf (tree : List PyStmt) :
    ((functionsOf tree).map Prod.fst).Nodup := by
  refine keysNodup_foldl _ ?_ tree [] (by simp)
  intro r s hr
  cases s with
  | functionDef n b src => exact keysNodup_insertAssoc r n b hr
  | assign targets v src => exact hr
  | exprStmt v src => exact hr
  | otherDef src => exact hr
  | ifStmt t src => exact hr
  | otherS src => exact hr

theorem convert_eq (refs : RefTable) (ri : String → Option String) (fuel : Nat)
    (tree : List PyStmt) :
    convert refs ri fuel tree =
      (flush_markdown (flush_code
        (match lookupAssoc (functionsOf tree) (entry_point (functionsOf tree)) with
         | some b => process_body (functionsOf tree) refs ri fuel b
             { cells := [], cm := [], cc := top_level_code tree } b
         | none =>
             { cells := [], cm := [], cc := top_level_code tree }))).cells := rfl

/-- Claim C5: `convert` walks exactly one entry function — `main` when
the tree defines one at top level, otherwise the first top-level
function whose name starts with `lecture_` — and with neither present no
body is walked and the output holds only the cell flushed from the
top-level code. -/
theorem claim_C5 (refs : RefTable) (ri : String → Option String) (fuel : Nat)
    (tree : List PyStmt) :
    (∀ b, lookupAssoc (functionsOf tree) "main" = some b →
      convert refs ri fuel tree =
        (flush_markdown (flush_code (process_body (functionsOf tree) refs ri fuel b
          { cells := [], cm := [], cc := top_level_code tree } b))).cells) ∧
    (lookupAssoc (functionsOf tree) "main" = none →
      ∀ p, (functionsOf tree).find? (fun q => pyStartswith q.1 "lecture_") = some p →
        convert refs ri fuel tree =
          (flush_markdown (flush_code (process_body (functionsOf tree) refs ri fuel p.2
            { cells := [], cm := [], cc := top_level_code tree } p.2))).cells) ∧
    (lookupAssoc (functionsOf tree) "main" = none →
      (functionsOf tree).find? (fun q => pyStartswith q.1 "lecture_") = none →
      convert refs ri fuel tree =
        (flush_code { cells := [], cm := [], cc := top_level_code tree }).cells) := by
  refine ⟨?_, ?_, ?_⟩
  · intro b hb
    have hep : entry_point (functionsOf tree) = "main" := by
      simp [entry_point, hb]
    rw [convert_eq, hep, hb]
  · intro hm p hp
    obtain ⟨pn, pb⟩ := p
    have hep : entry_point (functionsOf tree) = pn := by
      simp [entry_point, hm, hp]
    have hmem : (pn, pb) ∈ functionsOf tree := List.mem_of_find?_eq_some hp
    have hl : lookupAssoc (functionsOf tree) pn = some pb :=
      lookupAssoc_of_mem_nodup _ pn pb (keysNodup_functionsOf tree) hmem
    rw [convert_eq, hep, hl]
  · intro hm hf
    have hep : entry_point (functionsOf tree) = "main" := by
      simp [entry_point, hm, hf]
    rw [convert_eq, hep, hm]
    rw [flush_code_eq, flush_markdown_eq]
    simp [mdCellList_nil]

/-- Claim C5, applied to a tree with `main`, a tree with only a
`lecture_` function, and a tree with neither. -/
theorem claim_C5_witness :
    convert [] noImage 1 treeMain =
      (flush_markdown (flush_code (process_body (functionsOf treeMain) [] noImage 1 []
        { cells := [], cm := [], cc := top_level_code treeMain } []))).cells ∧
    convert [] noImage 1 treeLecture =
      (flush_markdown (flush_code (process_body (functionsOf treeLecture) [] noImage 1 []
        { cells := [], cm := [], cc := top_level_code treeLecture } []))).cells ∧
    convert [] noImage 1 treeTopOnly =
      (flush_code { cells := [], cm := [], cc := top_level_code treeTopOnly }).cells :=
  ⟨(claim_C5 [] noImage 1 treeMain).1 [] rfl,
   (claim_C5 [] noImage 1 treeLecture).2.1 rfl ("lecture_intro", []) rfl,
   (claim_C5 [] noImage 1 treeTopOnly).2.2 rfl rfl⟩
